import Mathlib

/-!
Shallow embedding of `convert-trace.py`: a converter for `.trs` files from a
RIGOL vector network analyser.  Python dictionaries are modelled as
insertion-ordered association lists (`Dict`), Python scalars as the `Value`
inductive (floats as `Rat`; IEEE rounding is not modelled, all constants in
the claims are exactly representable at the precision used), and Python
exceptions as `Except PyErr`.  Mutation of nested dictionaries is modelled
functionally; this is faithful because the program never aliases a
sub-dictionary, and `parse_key` raises (if it raises at all) before its first
mutation, so an error never leaves a partial update behind.
-/

/-- Python runtime errors that the modelled fragment can raise. -/
inductive PyErr where
  | keyError : String → PyErr
  | typeError : PyErr
  | valueError : PyErr
  | zeroDiv : PyErr
  | nameError : String → PyErr
deriving DecidableEq

/-- A parsed scalar or nested dictionary, as stored in the state produced by
`parse_trs`.  `vDict` holds an insertion-ordered association list, mirroring a
Python `dict`. -/
inductive Value where
  | vBool : Bool → Value
  | vInt : Int → Value
  | vFloat : Rat → Value
  | vStr : String → Value
  | vDict : List (String × Value) → Value

/-- A Python dictionary with string keys: an insertion-ordered association
list with (by construction) distinct keys. -/
abbrev Dict := List (String × Value)

/-- Python dict lookup `d[k]`: the value at the first matching key. -/
def dictGet : Dict → String → Option Value
  | [], _ => none
  | (k', v') :: rest, k => if k' = k then some v' else dictGet rest k

/-- Python dict assignment `d[k] = v`: replace in place if the key exists
(keeping its position), otherwise append at the end. -/
def dictSet : Dict → String → Value → Dict
  | [], k, v => [(k, v)]
  | (k', v') :: rest, k, v =>
    if k' = k then (k', v) :: rest else (k', v') :: dictSet rest k v

/-- Python `str.replace(pat, repl)` on character lists: left-to-right,
non-overlapping replacement of every occurrence.  `fuel` bounds the
recursion; it is instantiated with the length of the list, which suffices
because every step consumes at least one character. -/
def replFuel (pat repl : List Char) : Nat → List Char → List Char
  | 0, s => s
  | fuel + 1, s =>
    match s with
    | [] => []
    | c :: rest =>
      if pat ≠ [] ∧ pat.isPrefixOf (c :: rest) then
        repl ++ replFuel pat repl fuel ((c :: rest).drop pat.length)
      else
        c :: replFuel pat repl fuel rest

/-- Python `str.replace` with the fuel instantiated. -/
def replaceAll (pat repl s : List Char) : List Char :=
  replFuel pat repl s.length s

/-- The token-normalisation phase of `parse_key` (lines 138-143 of the
source): the four encoded delimiter tokens `%5B`, `%5D.`, `%5D`, `-%3E` are
replaced, in this order, by the internal separator `\`, and `%20` by a
space. -/
def normChars (key : String) : List Char :=
  let s1 := replaceAll "%5B".toList ['\\'] key.toList
  let s2 := replaceAll "%5D.".toList ['\\'] s1
  let s3 := replaceAll "%5D".toList ['\\'] s2
  let s4 := replaceAll "-%3E".toList ['\\'] s3
  replaceAll "%20".toList [' '] s4

/-- Python `key.rstrip('\\')`: remove every trailing backslash. -/
def rstripBS : List Char → List Char
  | [] => []
  | c :: rest =>
    let r := rstripBS rest
    if r = [] ∧ c = '\\' then [] else c :: r

/-- The key after normalisation and `rstrip('\\')` (line 146 of the
source). -/
def pkStripped (key : String) : String :=
  String.mk (rstripBS (normChars key))

/-- Python `s.split(sep)` for a one-character separator, on character
lists.  Always returns a non-empty list of chunks. -/
def splitOnCh (sep : Char) : List Char → List (List Char)
  | [] => [[]]
  | c :: rest =>
    match splitOnCh sep rest with
    | [] => if c = sep then [[], []] else [[c]]
    | s :: ss => if c = sep then [] :: s :: ss else (c :: s) :: ss

/-- The segment list of a key: the normalised, stripped key split at the
internal separator.  The `while` loop of `parse_key` peels these segments off
one by one with `key.split('\\', 1)`, which is equivalent to splitting at
every separator up front. -/
def segments (key : String) : List String :=
  (splitOnCh '\\' (pkStripped key).data).map String.mk

/-- The descent-and-assign loop of `parse_key` (lines 149-160): walk the
segment list, descending into (and creating, if absent) a sub-dictionary per
non-final segment, and assign the value at the final segment.  Descending
into an existing non-dictionary value raises a `TypeError` in Python,
modelled as `none`; Python raises before any mutation in that case, so
`none` faithfully stands for "error, container unchanged". -/
def insertPath : List String → Dict → Value → Option Dict
  | [], d, v => some (dictSet d "" v)
  | [leaf], d, v => some (dictSet d leaf v)
  | seg :: rest, d, v =>
    match dictGet d seg with
    | none =>
      match insertPath rest [] v with
      | none => none
      | some sd' => some (dictSet d seg (Value.vDict sd'))
    | some (Value.vDict sd) =>
      match insertPath rest sd v with
      | none => none
      | some sd' => some (dictSet d seg (Value.vDict sd'))
    | some _ => none

/-- Source `parse_key(key, current_dict, value)` (lines 120-160): normalise
the delimiter tokens, strip trailing separators, then split and descend.
Returns the updated dictionary, or `none` for a Python `TypeError`. -/
def parse_key (key : String) (current_dict : Dict) (value : Value) : Option Dict :=
  insertPath (segments key) current_dict value

/-- Source `boolify` (lines 37-64): accepts exactly the literals `'True'`,
`'true'`, `'False'`, `'false'`; anything else raises `ValueError`, modelled
as `none`. -/
def boolify (value : String) : Option Bool :=
  if value = "True" ∨ value = "true" then some true
  else if value = "False" ∨ value = "false" then some false
  else none

/-- A decimal digit. -/
def isDigitCh (c : Char) : Bool := '0' ≤ c && c ≤ '9'

/-- ASCII whitespace accepted around Python numeric literals. -/
def isSpaceCh (c : Char) : Bool :=
  c = ' ' || c = '\t' || c = '\n' || c = '\r'

/-- Numeric value of a digit string. -/
def digitsToNat (cs : List Char) : Nat :=
  cs.foldl (fun a c => 10 * a + (c.toNat - 48)) 0

/-- Strip surrounding whitespace. -/
def stripWS (cs : List Char) : List Char :=
  ((cs.dropWhile isSpaceCh).reverse.dropWhile isSpaceCh).reverse

/-- Consume an optional sign, returning the sign as `1` or `-1`. -/
def takeSign : List Char → Int × List Char
  | '+' :: rest => (1, rest)
  | '-' :: rest => (-1, rest)
  | cs => (1, cs)

/-- Modelled from the spec: Python's built-in `int(str)` (not in `src/`),
"the target language's native numeric parser": optional surrounding
whitespace, an optional sign, then one or more decimal digits.  (Underscore
digit grouping and non-ASCII digits are outside the model.)  `none` models
`ValueError`. -/
def py_int (s : String) : Option Int :=
  let (sgn, cs) := takeSign (stripWS s.toList)
  let (ds, rest) := cs.span isDigitCh
  if ds ≠ [] ∧ rest = [] then some (sgn * (digitsToNat ds : Int)) else none

/-- Modelled from the spec: Python's built-in `float(str)` (not in `src/`),
"including optional sign, decimal point, exponent": whitespace, optional
sign, a mantissa `D+ | D+.D* | .D+`, and an optional exponent
`(e|E) sign? D+`.  The value is represented exactly as a rational;
(`inf`/`nan` literals and IEEE rounding are outside the model.)  `none`
models `ValueError`. -/
def py_float_parts (s : String) : Option (Int × List Char × List Char × Int) :=
  let (sgn, cs) := takeSign (stripWS s.toList)
  let (ip, r1) := cs.span isDigitCh
  let (fp, r2) :=
    match r1 with
    | '.' :: r => r.span isDigitCh
    | _ => ([], r1)
  if ip = [] ∧ fp = [] then none
  else
    match r2 with
    | [] => some (sgn, ip, fp, 0)
    | e :: r3 =>
      if e = 'e' ∨ e = 'E' then
        let (esgn, r4) := takeSign r3
        let (ed, r5) := r4.span isDigitCh
        if ed ≠ [] ∧ r5 = [] then some (sgn, ip, fp, esgn * (digitsToNat ed : Int))
        else none
      else none

/-- The rational value of a parsed float: sign, integer digits, fraction
digits, decimal exponent. -/
def ratOfParts : Int × List Char × List Char × Int → Rat
  | (sgn, ip, fp, ex) =>
    let mant : Rat :=
      (sgn : Rat) * ((digitsToNat ip : Rat) + (digitsToNat fp : Rat) / ((10 : Rat) ^ fp.length))
    if 0 ≤ ex then mant * ((10 : Rat) ^ ex.toNat) else mant / ((10 : Rat) ^ (-ex).toNat)

/-- Python `float(str)` assembled from the two phases above. -/
def py_float (s : String) : Option Rat :=
  (py_float_parts s).map ratOfParts

/-- Source `auto_cast` (lines 13-34): try `boolify`, then `int`, then
`float`, returning the first success, else the original string.  Total by
construction: every failure of a caster falls through to the next. -/
def auto_cast (value : String) : Value :=
  match boolify value with
  | some b => Value.vBool b
  | none =>
    match py_int value with
    | some n => Value.vInt n
    | none =>
      match py_float value with
      | some q => Value.vFloat q
      | none => Value.vStr value

/-- Python `str(n)` for a natural number, decimal digits.  Used for the
1-based record keys `f'{i+1}'`. -/
def digitsAux : Nat → Nat → List Char
  | 0, _ => []
  | fuel + 1, n =>
    if n < 10 then [Char.ofNat (48 + n)]
    else digitsAux fuel (n / 10) ++ [Char.ofNat (48 + n % 10)]

/-- Python `str(n)` on a natural number. -/
def natToStr (n : Nat) : String :=
  String.mk (digitsAux (n + 1) n)

/-- Split a character list at the first occurrence of `sep`:
Python `line.split(sep, 1)` when it succeeds, `none` when `sep` is absent
(in which case the two-target unpacking in the source raises
`ValueError`). -/
def splitFirst (sep : Char) : List Char → Option (List Char × List Char)
  | [] => none
  | c :: rest =>
    if c = sep then some ([], rest)
    else
      match splitFirst sep rest with
      | none => none
      | some (a, b) => some (c :: a, b)

/-- Python `line.split('=', 1)` unpacked into key and value. -/
def splitEq (line : String) : Option (String × String) :=
  match splitFirst '=' line.data with
  | none => none
  | some (a, b) => some (String.mk a, String.mk b)

/-- Source test `line.startswith('[') and line.endswith(']')` (line 183). -/
def isHeaderLine (line : String) : Bool :=
  match line.data, line.data.getLast? with
  | c :: _, some d => c = '[' && d = ']'
  | _, _ => false

/-- Python `line[1:-1]`: the section name inside a header line. -/
def headerName (line : String) : String :=
  String.mk line.data.tail.dropLast

/-- One iteration of the loop of `parse_trs` (source lines 178-190), acting
on the pair (current section name, output dictionary).  A header line
unconditionally re-binds `output[section]` to a fresh empty dictionary; a
key/value line splits at the first `=`, auto-casts the value and inserts via
`parse_key` into the current section (raising `KeyError` if that section was
never declared). -/
def parse_trs_line : String × Dict → String → Except PyErr (String × Dict)
  | (sect, output), line =>
    if line = "" then Except.ok (sect, output)
    else if isHeaderLine line then
      Except.ok (headerName line, dictSet output (headerName line) (Value.vDict []))
    else
      match splitEq line with
      | none => Except.error PyErr.valueError
      | some (k, v) =>
        match dictGet output sect with
        | none => Except.error (PyErr.keyError sect)
        | some (Value.vDict sd) =>
          match parse_key k sd (auto_cast v) with
          | none => Except.error PyErr.typeError
          | some sd' => Except.ok (sect, dictSet output sect (Value.vDict sd'))
        | some _ => Except.error PyErr.typeError

/-- Python `content.splitlines()`, modelled as splitting at `'\n'`.  (The
other Unicode line terminators accepted by `splitlines` are outside the
model; the trailing empty chunk this produces on a newline-terminated input
is skipped by the blank-line rule, so it does not affect the result.) -/
def splitLines (content : String) : List String :=
  (splitOnCh '\n' content.data).map String.mk

/-- Source `parse_trs(content)` (lines 163-199): fold the line handler over
the lines of the file, starting from the empty section name and the empty
output dictionary. -/
def parse_trs (content : String) : Except PyErr Dict := do
  let res ← (splitLines content).foldlM parse_trs_line ("", [])
  pure res.2

/-- A row of the trace table: frequency, then the `ampy` and `ampz` fields
of the indexed record. -/
abbrev Row := Rat × Value × Value

/-- Subscript `d[k]` on an arbitrary value: `TypeError` on a non-dictionary,
`KeyError` on a missing key. -/
def getItem (v : Value) (key : String) : Except PyErr Value :=
  match v with
  | Value.vDict d =>
    match dictGet d key with
    | some x => Except.ok x
    | none => Except.error (PyErr.keyError key)
  | _ => Except.error PyErr.typeError

/-- Lookup `state[sec][key]` with Python's error behaviour. -/
def lookup2 (state : Dict) (sec key : String) : Except PyErr Value :=
  match dictGet state sec with
  | none => Except.error (PyErr.keyError sec)
  | some v => getItem v key

/-- A scalar as a Python number, for arithmetic: `bool` counts as `0`/`1`
(it is an `int` subtype in Python); a string or dictionary operand raises
`TypeError`. -/
def numOf : Value → Except PyErr Rat
  | Value.vInt n => Except.ok (n : Rat)
  | Value.vFloat q => Except.ok q
  | Value.vBool b => Except.ok (if b then 1 else 0)
  | _ => Except.error PyErr.typeError

/-- The `step_f` computation of `convert` (source lines 244-247):
`(state['VNAGloble']['m_f64StopFreq'] - state['VNAGloble']['m_f64StartFreq'])
/ (state['Trace']['size'] - 1)`, raising `ZeroDivisionError` when the
denominator is zero.  No guard for `size == 1` exists. -/
def step_f (state : Dict) : Except PyErr Rat := do
  let stopV ← lookup2 state "VNAGloble" "m_f64StopFreq"
  let startV ← lookup2 state "VNAGloble" "m_f64StartFreq"
  let stopN ← numOf stopV
  let startN ← numOf startV
  let sizeV ← lookup2 state "Trace" "size"
  let sizeN ← numOf sizeV
  if sizeN - 1 = 0 then Except.error PyErr.zeroDiv
  else Except.ok ((stopN - startN) / (sizeN - 1))

/-- The frequency of the `i`-th row (0-based): `start + i * step`. -/
def freq_at (start step : Rat) (i : Nat) : Rat :=
  start + (i : Rat) * step

/-- One row of the trace comprehension (source lines 256-259): re-read the
start frequency, fetch record `str(i+1)` of the section, and pair the
frequency with its `ampy` and `ampz` fields. -/
def row_at (state : Dict) (sec : String) (step : Rat) (i : Nat) :
    Except PyErr Row := do
  let startV ← lookup2 state "VNAGloble" "m_f64StartFreq"
  let startN ← numOf startV
  let r ← lookup2 state sec (natToStr (i + 1))
  let y ← getItem r "ampy"
  let z ← getItem r "ampz"
  Except.ok (freq_at startN step i, y, z)

/-- Python `range(state[sec]['size'])` needs an integer; Python `range` rejects
floats with `TypeError` (`bool` again counts as an `int`). -/
def get_size (state : Dict) (sec : String) : Except PyErr Int := do
  let v ← lookup2 state sec "size"
  match v with
  | Value.vInt n => Except.ok n
  | Value.vBool b => Except.ok (if b then 1 else 0)
  | _ => Except.error PyErr.typeError

/-- Sequence a fallible function over a list, stopping at the first error:
the evaluation order of a Python list comprehension over `range`. -/
def exMap {α β : Type} (f : α → Except PyErr β) : List α → Except PyErr (List β)
  | [] => Except.ok []
  | a :: tl => do
    let b ← f a
    let bs ← exMap f tl
    pure (b :: bs)

/-- The whole list comprehension building a trace table (source lines
255-260 and 272-277): one `row_at` per index in `range(size)`. -/
def trace_rows (state : Dict) (sec : String) (step : Rat) :
    Except PyErr (List Row) := do
  let n ← get_size state sec
  exMap (row_at state sec step) (List.range n.toNat)

/-- Python `v == 0` on the `size` value (source line 262): numeric values
compare by value (`False == 0` is true), anything else is simply unequal. -/
def pyEqZero : Value → Bool
  | Value.vInt n => n = 0
  | Value.vFloat q => q = 0
  | Value.vBool b => !b
  | _ => false

/-- The outputs of one `convert` call: the configuration document (the state
itself, written as JSON), the trace table, the memory-trace table, and
whether the memory output was skipped because its `size` was zero.  File
writing itself is outside the model; each field records what would be
written. -/
structure ConvResult where
  configOut : Option Dict
  traceRows : Option (List Row)
  memoryRows : Option (List Row)
  memorySkipped : Bool

/-- Source `convert` (lines 202-279), after `parse_trs` produced `state`:
`step_f` is computed only inside the `if config:` block; the trace block
dereferences it, raising `NameError` when `config` is false; the memory
block first re-tests `size == 0` and skips (not an error) when it holds. -/
def convert (state : Dict) (config trace memory : Bool) :
    Except PyErr ConvResult := do
  let stepOpt ←
    if config then do
      let s ← step_f state
      pure (some s)
    else pure (none : Option Rat)
  let tRows ←
    if trace then
      match stepOpt with
      | none => Except.error (PyErr.nameError "step_f")
      | some st => do
        let rows ← trace_rows state "Trace" st
        pure (some rows)
    else pure (none : Option (List Row))
  let skipMem ←
    if memory then do
      let v ← lookup2 state "MemoryTrace" "size"
      pure (pyEqZero v)
    else pure false
  let mRows ←
    if memory && !skipMem then
      match stepOpt with
      | none => Except.error (PyErr.nameError "step_f")
      | some st => do
        let rows ← trace_rows state "MemoryTrace" st
        pure (some rows)
    else pure (none : Option (List Row))
  pure ⟨if config then some state else none, tRows, mRows, memory && skipMem⟩

/-- Access a nested entry of a dictionary by a path of keys: descend through
sub-dictionaries, `none` if any step is missing or passes through a
non-dictionary.  Pure observation helper used to state frame properties. -/
def getPath (d : Dict) : List String → Option Value
  | [] => some (Value.vDict d)
  | k :: q =>
    match dictGet d k with
    | some (Value.vDict sd) => getPath sd q
    | some v => if q = [] then some v else none
    | none => none

/-- Boolean prefix test on key paths. -/
def isPre : List String → List String → Bool
  | [], _ => true
  | _ :: _, [] => false
  | a :: as, b :: bs => a = b && isPre as bs

/-- Whether a (normalised) key still ends in the internal separator. -/
def endsInSep (s : String) : Bool :=
  match s.data.getLast? with
  | some c => c = '\\'
  | none => false

theorem dictGet_set_self (d : Dict) (k : String) (v : Value) :
    dictGet (dictSet d k v) k = some v := by
  induction d with
  | nil => simp [dictSet, dictGet]
  | cons hd tl ih =>
    obtain ⟨k', v'⟩ := hd
    by_cases h : k' = k
    · simp [dictSet, dictGet, h]
    · simp [dictSet, dictGet, h, ih]

theorem dictGet_set_ne (d : Dict) (k k' : String) (v : Value) (h : k' ≠ k) :
    dictGet (dictSet d k v) k' = dictGet d k' := by
  have h' : ¬(k = k') := fun hh => h hh.symm
  induction d with
  | nil => simp [dictSet, dictGet, h']
  | cons hd tl ih =>
    obtain ⟨k0, v0⟩ := hd
    by_cases h0 : k0 = k
    · subst h0
      simp [dictSet, dictGet, h']
    · simp [dictSet, dictGet, h0, ih]

theorem rstripBS_getLast? (cs : List Char) :
    ∀ c, (rstripBS cs).getLast? = some c → c ≠ '\\' := by
  induction cs with
  | nil => intro c hc; simp [rstripBS] at hc
  | cons a rest ih =>
    intro c hc
    simp only [rstripBS] at hc
    split at hc
    · simp at hc
    · rename_i hcond
      rcases hr : rstripBS rest with _ | ⟨b, bs⟩
      · rw [hr] at hc
        simp at hc
        subst hc
        intro hbs
        exact hcond ⟨hr, hbs⟩
      · rw [hr] at hc
        rw [List.getLast?_cons_cons] at hc
        exact ih c (by rw [hr]; exact hc)

theorem exMap_ok {α β : Type} (f : α → Except PyErr β) (g : α → β) :
    ∀ l : List α, (∀ a ∈ l, f a = Except.ok (g a)) →
      exMap f l = Except.ok (l.map g) := by
  intro l
  induction l with
  | nil => intro _; simp [exMap]
  | cons a tl ih =>
    intro h
    rw [exMap, h a (by simp)]
    have h2 := ih (fun x hx => h x (by simp [hx]))
    rw [h2]
    rfl

@[simp] theorem exc_ok_bind {ε α β : Type} (a : α) (f : α → Except ε β) :
    (Except.ok a : Except ε α) >>= f = f a := rfl

@[simp] theorem exc_err_bind {ε α β : Type} (e : ε) (f : α → Except ε β) :
    (Except.error e : Except ε α) >>= f = Except.error e := rfl

@[simp] theorem exc_pure_eq_ok {ε α : Type} (a : α) :
    (pure a : Except ε α) = Except.ok a := rfl

theorem isPre_cons_same (a : String) (as bs : List String) :
    isPre (a :: as) (a :: bs) = isPre as bs := by
  simp [isPre]

theorem insertPath_frame :
    ∀ (segs : List String) (d : Dict) (v : Value) (d' : Dict),
      insertPath segs d v = some d' →
      ∀ q : List String, isPre segs q = false → isPre q segs = false →
        getPath d' q = getPath d q := by
  intro segs
  induction segs with
  | nil =>
    intro d v d' _ q h1 _
    simp [isPre] at h1
  | cons seg rest ih =>
    intro d v d' hins q h1 h2
    rcases rest with _ | ⟨s2, rest'⟩
    · -- single segment: d' = dictSet d seg v
      simp only [insertPath, Option.some.injEq] at hins
      subst hins
      rcases q with _ | ⟨k, q'⟩
      · simp [isPre] at h2
      · by_cases hk : seg = k
        · subst hk
          simp [isPre] at h1
        · simp only [getPath, dictGet_set_ne d seg k v (fun hh => hk hh.symm)]
    · -- at least two segments
      rcases q with _ | ⟨k, q'⟩
      · simp [isPre] at h2
      · by_cases hk : seg = k
        · subst hk
          rw [isPre_cons_same] at h1 h2
          have hq' : q' ≠ [] := by
            intro hq
            subst hq
            simp [isPre] at h2
          rcases hget : dictGet d seg with _ | val
          · simp only [insertPath, hget] at hins
            rcases hrec : insertPath (s2 :: rest') [] v with _ | sd'
            · rw [hrec] at hins; exact absurd hins (by simp)
            · rw [hrec] at hins
              simp only [Option.some.injEq] at hins
              subst hins
              have hleft : getPath (dictSet d seg (Value.vDict sd')) (seg :: q') =
                  getPath sd' q' := by
                simp [getPath, dictGet_set_self]
              rw [hleft, ih [] v sd' hrec q' h1 h2]
              rcases q' with _ | ⟨k2, q''⟩
              · exact absurd rfl hq'
              · simp [getPath, dictGet, hget]
          · rcases val with b | n | x | s | sd
            · simp [insertPath, hget] at hins
            · simp [insertPath, hget] at hins
            · simp [insertPath, hget] at hins
            · simp [insertPath, hget] at hins
            · simp only [insertPath, hget] at hins
              rcases hrec : insertPath (s2 :: rest') sd v with _ | sd'
              · rw [hrec] at hins; exact absurd hins (by simp)
              · rw [hrec] at hins
                simp only [Option.some.injEq] at hins
                subst hins
                have hleft : getPath (dictSet d seg (Value.vDict sd')) (seg :: q') =
                    getPath sd' q' := by
                  simp [getPath, dictGet_set_self]
                rw [hleft, ih sd v sd' hrec q' h1 h2]
                simp [getPath, hget]
        · -- q starts with a different key: untouched
          have hd' : ∃ w, d' = dictSet d seg w := by
            rcases hget : dictGet d seg with _ | val
            · simp only [insertPath, hget] at hins
              rcases hrec : insertPath (s2 :: rest') [] v with _ | sd'
              · rw [hrec] at hins; exact absurd hins (by simp)
              · rw [hrec] at hins
                simp only [Option.some.injEq] at hins
                exact ⟨_, hins.symm⟩
            · rcases val with b | n | x | s | sd
              · simp [insertPath, hget] at hins
              · simp [insertPath, hget] at hins
              · simp [insertPath, hget] at hins
              · simp [insertPath, hget] at hins
              · simp only [insertPath, hget] at hins
                rcases hrec : insertPath (s2 :: rest') sd v with _ | sd'
                · rw [hrec] at hins; exact absurd hins (by simp)
                · rw [hrec] at hins
                  simp only [Option.some.injEq] at hins
                  exact ⟨_, hins.symm⟩
          obtain ⟨w, hw⟩ := hd'
          subst hw
          simp only [getPath, dictGet_set_ne d seg k w (fun hh => hk hh.symm)]

theorem insertPath_creates :
    ∀ (segs : List String) (d : Dict) (v : Value) (d' : Dict),
      insertPath segs d v = some d' →
      ∀ q : List String, q ≠ [] → isPre q segs = true → q ≠ segs →
        ∃ sd, getPath d' q = some (Value.vDict sd) := by
  intro segs
  induction segs with
  | nil =>
    intro d v d' _ q hq h1 _
    rcases q with _ | ⟨k, q'⟩
    · exact absurd rfl hq
    · simp [isPre] at h1
  | cons seg rest ih =>
    intro d v d' hins q hq h1 h2
    rcases q with _ | ⟨k, q'⟩
    · exact absurd rfl hq
    · have hks : k = seg := by
        rcases rest with _ | ⟨s2, rest'⟩ <;>
          · simp only [isPre, Bool.and_eq_true, decide_eq_true_eq] at h1
            exact h1.1
      subst hks
      rcases rest with _ | ⟨s2, rest'⟩
      · -- segs = [k]: the only prefixes of [k] are [] and [k] itself
        have : q' = [] := by
          rcases q' with _ | ⟨k2, q''⟩
          · rfl
          · simp [isPre] at h1
        subst this
        exact absurd rfl h2
      · -- segs = k :: s2 :: rest'
        rw [isPre_cons_same] at h1
        have hne : q' ≠ s2 :: rest' := fun hh => h2 (by rw [hh])
        rcases hget : dictGet d k with _ | val
        · simp only [insertPath, hget] at hins
          rcases hrec : insertPath (s2 :: rest') [] v with _ | sd'
          · rw [hrec] at hins; exact absurd hins (by simp)
          · rw [hrec] at hins
            simp only [Option.some.injEq] at hins
            subst hins
            rcases hq' : q' with _ | ⟨k2, q''⟩
            · exact ⟨sd', by simp [getPath, dictGet_set_self]⟩
            · have hch := ih [] v sd' hrec q' (by rw [hq']; simp) (hq' ▸ h1) (hq' ▸ hne)
              obtain ⟨t, ht⟩ := hch
              rw [← hq']
              exact ⟨t, by simp [getPath, dictGet_set_self]; exact ht⟩
        · rcases val with b | n | x | s | sd
          · simp [insertPath, hget] at hins
          · simp [insertPath, hget] at hins
          · simp [insertPath, hget] at hins
          · simp [insertPath, hget] at hins
          · simp only [insertPath, hget] at hins
            rcases hrec : insertPath (s2 :: rest') sd v with _ | sd'
            · rw [hrec] at hins; exact absurd hins (by simp)
            · rw [hrec] at hins
              simp only [Option.some.injEq] at hins
              subst hins
              rcases hq' : q' with _ | ⟨k2, q''⟩
              · exact ⟨sd', by simp [getPath, dictGet_set_self]⟩
              · have hch := ih sd v sd' hrec q' (by rw [hq']; simp) (hq' ▸ h1) (hq' ▸ hne)
                obtain ⟨t, ht⟩ := hch
                rw [← hq']
                exact ⟨t, by simp [getPath, dictGet_set_self]; exact ht⟩

/-- C1: the four encoded delimiter tokens are interchangeable in
`parse_key` — for every container and value, `a%5Bb%5D`, `a-%3Eb` and
`a%5D.b` trigger exactly the same assignment, which on an empty container
produces the nested `{a: {b: v}}`; and `%20` decodes to a literal space and
is never a path separator, so `a%20b%5Bc%5D` yields `{"a b": {c: v}}`. -/
theorem parse_key_delimiter_equiv (d : Dict) (v : Value) :
    parse_key "a%5Bb%5D" d v = parse_key "a-%3Eb" d v
    ∧ parse_key "a%5Bb%5D" d v = parse_key "a%5D.b" d v
    ∧ parse_key "a%5Bb%5D" [] v = some [("a", Value.vDict [("b", v)])]
    ∧ parse_key "a%20b%5Bc%5D" [] v = some [("a b", Value.vDict [("c", v)])] := by
  have h1 : segments "a%5Bb%5D" = ["a", "b"] := by decide
  have h2 : segments "a-%3Eb" = ["a", "b"] := by decide
  have h3 : segments "a%5D.b" = ["a", "b"] := by decide
  refine ⟨?_, ?_, rfl, rfl⟩
  · unfold parse_key
    rw [h1, h2]
  · unfold parse_key
    rw [h1, h3]

/-- C2: `auto_cast` returns the first successful interpretation in the
order boolean, integer, float, falling back to the unchanged string (total,
never an error); `boolify` accepts exactly the four literals; and the five
concrete examples of the spec. -/
theorem auto_cast_first_success :
    (∀ s b, boolify s = some b → auto_cast s = Value.vBool b)
    ∧ (∀ s n, boolify s = none → py_int s = some n → auto_cast s = Value.vInt n)
    ∧ (∀ s q, boolify s = none → py_int s = none → py_float s = some q →
        auto_cast s = Value.vFloat q)
    ∧ (∀ s, boolify s = none → py_int s = none → py_float s = none →
        auto_cast s = Value.vStr s)
    ∧ (∀ s, boolify s = some true ↔ (s = "True" ∨ s = "true"))
    ∧ (∀ s, boolify s = some false ↔ (s = "False" ∨ s = "false"))
    ∧ auto_cast "True" = Value.vBool true
    ∧ auto_cast "42" = Value.vInt 42
    ∧ auto_cast "3.14" = Value.vFloat (157 / 50)
    ∧ auto_cast "hello" = Value.vStr "hello"
    ∧ auto_cast "1" = Value.vInt 1 := by
  refine ⟨?_, ?_, ?_, ?_, ?_, ?_, rfl, rfl, ?_, rfl, rfl⟩
  · intro s b h
    simp [auto_cast, h]
  · intro s n h1 h2
    simp [auto_cast, h1, h2]
  · intro s q h1 h2 h3
    simp [auto_cast, h1, h2, h3]
  · intro s h1 h2 h3
    simp [auto_cast, h1, h2, h3]
  · intro s
    constructor
    · intro h
      by_cases h1 : s = "True" ∨ s = "true"
      · exact h1
      · by_cases h2 : s = "False" ∨ s = "false" <;> simp [boolify, h1, h2] at h
    · intro h
      rcases h with h | h <;> subst h <;> rfl
  · intro s
    constructor
    · intro h
      by_cases h1 : s = "True" ∨ s = "true"
      · simp [boolify, h1] at h
      · by_cases h2 : s = "False" ∨ s = "false" <;> simp [boolify, h1, h2] at h
        exact h2
    · intro h
      rcases h with h | h <;> subst h <;> rfl
  · have hb : boolify "3.14" = none := by decide
    have hi : py_int "3.14" = none := by decide
    have hp : py_float_parts "3.14" = some (1, ['3'], ['1', '4'], 0) := by decide
    simp [auto_cast, hb, hi, py_float, hp, ratOfParts, digitsToNat]
    norm_num

/-- C2 witness: the first clause applied at the concrete input `"false"`. -/
theorem auto_cast_first_success_witness : auto_cast "false" = Value.vBool false :=
  auto_cast_first_success.1 "false" false rfl

/-- C3 counterexample: after normalisation, `a%5B%5B` ends in two
separators and `rstrip('\\')` removes them BOTH, so the key splits into the
single segment `a` and no empty-named final segment ever appears — refuting
"strips exactly one trailing separator". -/
theorem rstrip_one_counterexample :
    pkStripped "a%5B%5B" = "a"
    ∧ segments "a%5B%5B" = ["a"]
    ∧ parse_key "a%5B%5B" [] (Value.vInt 1) = some [("a", Value.vInt 1)]
    ∧ (["a"] : List String) ≠ ["a", ""] := by
  exact ⟨by decide, by decide, rfl, by decide⟩

/-- C3 amended: `parse_key` strips ALL trailing separators (Python
`rstrip` removes every trailing character of the set): the stripped key
never ends in a separator, and a key ending in two consecutive encoded
delimiters behaves exactly like the key with no trailing delimiter at
all. -/
theorem parse_key_rstrip_all :
    (∀ key, endsInSep (pkStripped key) = false)
    ∧ (∀ (d : Dict) (v : Value), parse_key "a%5B%5B" d v = parse_key "a" d v) := by
  constructor
  · intro key
    unfold endsInSep pkStripped
    rcases h : (rstripBS (normChars key)).getLast? with _ | c
    · simp [h]
    · have hne := rstripBS_getLast? (normChars key) c h
      simp [h, hne]
  · intro d v
    have h1 : segments "a%5B%5B" = ["a"] := by decide
    have h2 : segments "a" = ["a"] := by decide
    unfold parse_key
    rw [h1, h2]

/-- C4 counterexample: a key that normalises and strips to the empty string
(here `%5B`) does NOT raise a structural parse error: `parse_key` succeeds
and assigns the value under the empty-string field name. -/
theorem empty_key_counterexample :
    pkStripped "%5B" = ""
    ∧ parse_key "%5B" [] (Value.vInt 7) = some [("", Value.vInt 7)]
    ∧ (some [("", Value.vInt 7)] : Option Dict) ≠ none := by
  exact ⟨by decide, rfl, by simp⟩

/-- C4 amended: for every key that normalises and strips to the empty
string, `parse_key` succeeds and assigns the value to the empty-string
field of the current container — no error is signalled. -/
theorem parse_key_empty_assigns (key : String) (d : Dict) (v : Value)
    (h : pkStripped key = "") :
    parse_key key d v = some (dictSet d "" v) := by
  unfold parse_key segments
  rw [h]
  rfl

/-- C4 witness: the amended theorem applied at the key `%5B` on a non-empty
container. -/
theorem parse_key_empty_assigns_witness :
    parse_key "%5B" [("x", Value.vInt 1)] (Value.vInt 7) =
      some (dictSet [("x", Value.vInt 1)] "" (Value.vInt 7)) :=
  parse_key_empty_assigns "%5B" [("x", Value.vInt 1)] (Value.vInt 7) (by decide)

/-- C5 counterexample: re-encountering the header `[s]` does NOT preserve
the previously inserted entries of section `s` — `output[section] = {}`
runs unconditionally, so the earlier assignment `a=1` is discarded. -/
theorem section_reset_counterexample :
    parse_trs "[s]\na=1" = Except.ok [("s", Value.vDict [("a", Value.vInt 1)])]
    ∧ parse_trs "[s]\na=1\n[s]\nb=2" = Except.ok [("s", Value.vDict [("b", Value.vInt 2)])]
    ∧ getPath [("s", Value.vDict [("b", Value.vInt 2)])] ["s", "a"] = none
    ∧ (Except.ok [("s", Value.vDict [("b", Value.vInt 2)])] : Except PyErr Dict) ≠
        Except.ok [("s", Value.vDict [("a", Value.vInt 1), ("b", Value.vInt 2)])] := by
  refine ⟨rfl, rfl, rfl, ?_⟩
  intro h
  simp at h

/-- C5 amended: a `[name]` header line switches the active section to
`name` and unconditionally re-binds the section to a fresh empty entry —
when the section already exists, its previous entries are discarded, not
preserved. -/
theorem section_header_resets (sect : String) (out : Dict) (name : String) :
    parse_trs_line (sect, out) ("[" ++ name ++ "]") =
      Except.ok (name, dictSet out name (Value.vDict []))
    ∧ dictGet (dictSet out name (Value.vDict [])) name = some (Value.vDict []) := by
  have hdata : ("[" ++ name ++ "]").data = '[' :: (name.data ++ [']']) := by
    rw [String.data_append, String.data_append]
    rfl
  have hlast : ('[' :: (name.data ++ [']'])).getLast? = some ']' := by
    rw [← List.cons_append]
    exact List.getLast?_concat _
  have hne : ("[" ++ name ++ "]") ≠ "" := by
    intro h
    have := congrArg String.data h
    rw [hdata] at this
    simp at this
  have hhd : isHeaderLine ("[" ++ name ++ "]") = true := by
    unfold isHeaderLine
    rw [hdata, hlast]
    rfl
  have hnm : headerName ("[" ++ name ++ "]") = name := by
    unfold headerName
    rw [hdata]
    show String.mk ((name.data ++ [']']).dropLast) = name
    rw [List.dropLast_concat]
  refine ⟨?_, dictGet_set_self out name (Value.vDict [])⟩
  simp [parse_trs_line, hne, hhd, hnm]

/-- A state whose trace section declares a single sample (`size = 1`). -/
def state_size_one : Dict :=
  [("VNAGloble", Value.vDict
      [("m_f64StartFreq", Value.vFloat 1000), ("m_f64StopFreq", Value.vFloat 2000)]),
   ("Trace", Value.vDict [("size", Value.vInt 1)])]

/-- C7: with `size = 1` in the trace section, the `step_f` computation
divides by zero and the conversion fails with `ZeroDivisionError` on every
path that reaches the division (any flag combination with `config`
selected). -/
theorem step_size_one_div_zero :
    getPath state_size_one ["Trace", "size"] = some (Value.vInt 1)
    ∧ step_f state_size_one = Except.error PyErr.zeroDiv
    ∧ convert state_size_one true false false = Except.error PyErr.zeroDiv
    ∧ convert state_size_one true true true = Except.error PyErr.zeroDiv := by
  refine ⟨rfl, ?_, ?_, ?_⟩ <;>
    simp [convert, step_f, state_size_one, lookup2, getItem, dictGet, numOf]

/-- C8: whenever the memory-trace section's `size` equals zero (in
Python's `== 0` sense), a conversion run with the memory output selected
succeeds, emits no memory rows, and records the skip. -/
theorem memory_skip_on_empty (state : Dict) (v : Value)
    (h1 : lookup2 state "MemoryTrace" "size" = Except.ok v)
    (h2 : pyEqZero v = true) :
    convert state false false true = Except.ok ⟨none, none, none, true⟩ := by
  simp [convert, h1, h2]

/-- C8 witness: the theorem applied to a concrete state with
`MemoryTrace.size = 0`. -/
theorem memory_skip_on_empty_witness :
    convert [("MemoryTrace", Value.vDict [("size", Value.vInt 0)])] false false true =
      Except.ok ⟨none, none, none, true⟩ :=
  memory_skip_on_empty [("MemoryTrace", Value.vDict [("size", Value.vInt 0)])]
    (Value.vInt 0) rfl rfl

/-- A well-formed two-sample state: global start/stop frequencies and a
complete trace section. -/
def demo_state : Dict :=
  [("VNAGloble", Value.vDict
      [("m_f64StartFreq", Value.vFloat 1000), ("m_f64StopFreq", Value.vFloat 2000)]),
   ("Trace", Value.vDict
      [("size", Value.vInt 2),
       ("1", Value.vDict [("ampy", Value.vFloat 10), ("ampz", Value.vFloat 20)]),
       ("2", Value.vDict [("ampy", Value.vFloat 30), ("ampz", Value.vFloat 40)])])]

/-- C9: the trace output is NOT independently selectable.  `step_f` is
assigned only inside the `if config:` block, so running `convert` with the
trace output selected but the configuration output deselected raises
`NameError` on the same well-formed state that converts fine when `config`
is also selected. -/
theorem trace_not_independent_of_config :
    convert demo_state false true false = Except.error (PyErr.nameError "step_f")
    ∧ convert demo_state true true false = Except.ok ⟨some demo_state,
        some [(1000, Value.vFloat 10, Value.vFloat 20),
              (2000, Value.vFloat 30, Value.vFloat 40)], none, false⟩ := by
  constructor
  · simp [convert]
  · have h1 : step_f demo_state = Except.ok 1000 := by
      simp [step_f, demo_state, lookup2, getItem, dictGet, numOf]
      norm_num
    simp only [demo_state] at h1
    simp [convert, h1, demo_state, lookup2, getItem, dictGet, numOf, trace_rows,
          get_size, exMap, row_at, natToStr, digitsAux, freq_at, List.range_succ]
    norm_num

/-- The spec's concrete frequency-axis example: start 1000, stop 2000,
11 samples. -/
def axis_example_state : Dict :=
  [("VNAGloble", Value.vDict
      [("m_f64StartFreq", Value.vFloat 1000), ("m_f64StopFreq", Value.vFloat 2000)]),
   ("Trace", Value.vDict [("size", Value.vInt 11)])]

/-- C6: for every state with numeric start/stop in the global section, an
integer `size ≥ 2` in the trace section, and a complete family of 1-based
indexed records, the conversion computes `step = (stop - start)/(size - 1)`
and emits one row per index `i` in `0..size-1` whose frequency is
`start + i*step`, paired with the record's `ampy` and `ampz`; concretely,
start 1000, stop 2000, size 11 give step 100, and the frequency at index 5
is 1500. -/
theorem convert_freq_axis :
    (∀ (state : Dict) (startV stopV : Value) (startQ stopQ : Rat) (n : Int)
       (r : Nat → Dict) (y z : Nat → Value),
       lookup2 state "VNAGloble" "m_f64StartFreq" = Except.ok startV →
       lookup2 state "VNAGloble" "m_f64StopFreq" = Except.ok stopV →
       numOf startV = Except.ok startQ →
       numOf stopV = Except.ok stopQ →
       lookup2 state "Trace" "size" = Except.ok (Value.vInt n) →
       2 ≤ n →
       (∀ i, i < n.toNat →
         lookup2 state "Trace" (natToStr (i + 1)) = Except.ok (Value.vDict (r i)) ∧
         dictGet (r i) "ampy" = some (y i) ∧ dictGet (r i) "ampz" = some (z i)) →
       step_f state = Except.ok ((stopQ - startQ) / ((n : Rat) - 1)) ∧
       convert state true true false = Except.ok
         ⟨some state,
          some ((List.range n.toNat).map fun (i : Nat) =>
            (startQ + (i : Rat) * ((stopQ - startQ) / ((n : Rat) - 1)), y i, z i)),
          none, false⟩)
    ∧ step_f axis_example_state = Except.ok 100
    ∧ freq_at 1000 100 5 = 1500 := by
  refine ⟨?_, ?_, ?_⟩
  · intro state startV stopV startQ stopQ n r y z hstart hstop hnstart hnstop hsize hn hrec
    have hne : ((n : Rat) - 1) ≠ 0 := by
      have h1 : (n : Rat) ≠ 1 := by
        exact_mod_cast (by omega : n ≠ 1)
      intro h
      apply h1
      linarith
    have hsizeN : numOf (Value.vInt n) = Except.ok ((n : Rat)) := rfl
    have hstep : step_f state = Except.ok ((stopQ - startQ) / ((n : Rat) - 1)) := by
      simp [step_f, hstop, hstart, hnstop, hnstart, hsize, hsizeN, hne]
    have hrow : ∀ i ∈ List.range n.toNat,
        row_at state "Trace" ((stopQ - startQ) / ((n : Rat) - 1)) i =
          Except.ok (freq_at startQ ((stopQ - startQ) / ((n : Rat) - 1)) i, y i, z i) := by
      intro i hi
      obtain ⟨h1, h2, h3⟩ := hrec i (List.mem_range.mp hi)
      simp [row_at, hstart, hnstart, h1, getItem, h2, h3]
    have hmap := exMap_ok _ _ (List.range n.toNat) hrow
    have htr : trace_rows state "Trace" ((stopQ - startQ) / ((n : Rat) - 1)) =
        Except.ok ((List.range n.toNat).map
          fun i => (freq_at startQ ((stopQ - startQ) / ((n : Rat) - 1)) i, y i, z i)) := by
      simp [trace_rows, get_size, hsize, hmap]
    refine ⟨hstep, ?_⟩
    simp [convert, hstep, htr, freq_at]
  · simp [step_f, axis_example_state, lookup2, getItem, dictGet, numOf]
    norm_num
  · norm_num [freq_at]

/-- A two-sample state used to instantiate the frequency-axis theorem. -/
def axis_witness_state : Dict :=
  [("VNAGloble", Value.vDict
      [("m_f64StartFreq", Value.vFloat 100), ("m_f64StopFreq", Value.vFloat 300)]),
   ("Trace", Value.vDict
      [("size", Value.vInt 2),
       ("1", Value.vDict [("ampy", Value.vFloat 3), ("ampz", Value.vFloat 4)]),
       ("2", Value.vDict [("ampy", Value.vFloat 7), ("ampz", Value.vFloat 8)])])]

/-- The indexed records of `axis_witness_state`. -/
def axis_witness_rec (i : Nat) : Dict :=
  if i = 0 then [("ampy", Value.vFloat 3), ("ampz", Value.vFloat 4)]
  else [("ampy", Value.vFloat 7), ("ampz", Value.vFloat 8)]

/-- The `ampy` fields of `axis_witness_state`. -/
def axis_witness_y (i : Nat) : Value :=
  if i = 0 then Value.vFloat 3 else Value.vFloat 7

/-- The `ampz` fields of `axis_witness_state`. -/
def axis_witness_z (i : Nat) : Value :=
  if i = 0 then Value.vFloat 4 else Value.vFloat 8

/-- C6 witness: the frequency-axis theorem applied to a concrete two-sample
state (start 100, stop 300, so step 200 and rows at 100 and 300). -/
theorem convert_freq_axis_witness :
    convert axis_witness_state true true false = Except.ok
      ⟨some axis_witness_state,
       some [(100, Value.vFloat 3, Value.vFloat 4), (300, Value.vFloat 7, Value.vFloat 8)],
       none, false⟩ := by
  have h := (convert_freq_axis.1 axis_witness_state
      (Value.vFloat 100) (Value.vFloat 300) 100 300 2
      axis_witness_rec axis_witness_y axis_witness_z
      rfl rfl rfl rfl rfl (by norm_num)
      (by
        intro i hi
        have hi2 : i < 2 := by simpa using hi
        interval_cases i <;>
          exact ⟨rfl, rfl, rfl⟩)).2
  rw [h]
  have h2 : (2 : Int).toNat = 2 := rfl
  rw [h2]
  norm_num [List.range_succ, axis_witness_y, axis_witness_z]

/-- C10 counterexample: assigning along the path `["a"]` is NOT limited to
entries whose key is a segment of that path — the leaf overwrite replaces
the whole sub-mapping stored at `a`, so the nested entry `b` (not a segment
of the path) loses its value, and a nesting level is removed. -/
theorem parse_key_frame_counterexample :
    segments "a" = ["a"]
    ∧ ("b" ∉ segments "a")
    ∧ parse_key "a" [("a", Value.vDict [("b", Value.vInt 1)])] (Value.vInt 2) =
        some [("a", Value.vInt 2)]
    ∧ getPath [("a", Value.vDict [("b", Value.vInt 1)])] ["a", "b"] = some (Value.vInt 1)
    ∧ getPath [("a", Value.vInt 2)] ["a", "b"] = none := by
  exact ⟨by decide, by decide, rfl, rfl, rfl⟩

/-- C10 amended: `parse_key` modifies the container only along the
normalised path of the key: every nested entry whose access path neither
extends the key's path nor is a prefix of it keeps exactly its previous
value, and every proper non-empty prefix of the path holds a sub-mapping
afterwards (intermediate levels are only created); only the leaf assignment
itself may replace an existing entry — including an existing sub-mapping,
whose contents are then discarded. -/
theorem parse_key_frame (key : String) (d : Dict) (v : Value) (d' : Dict)
    (h : parse_key key d v = some d') :
    (∀ q : List String, isPre (segments key) q = false → isPre q (segments key) = false →
        getPath d' q = getPath d q)
    ∧ (∀ q : List String, q ≠ [] → isPre q (segments key) = true → q ≠ segments key →
        ∃ sd, getPath d' q = some (Value.vDict sd)) :=
  ⟨fun q h1 h2 => insertPath_frame (segments key) d v d' h q h1 h2,
   fun q h1 h2 h3 => insertPath_creates (segments key) d v d' h q h1 h2 h3⟩

/-- C10 witness: inserting along `a.b` into `{x: 9}` leaves the off-path
entry `x` untouched and creates the intermediate sub-mapping `a`. -/
theorem parse_key_frame_witness :
    getPath [("x", Value.vInt 9), ("a", Value.vDict [("b", Value.vInt 1)])] ["x"] =
      getPath [("x", Value.vInt 9)] ["x"]
    ∧ ∃ sd, getPath [("x", Value.vInt 9), ("a", Value.vDict [("b", Value.vInt 1)])] ["a"] =
        some (Value.vDict sd) := by
  have h := parse_key_frame "a%5Bb" [("x", Value.vInt 9)] (Value.vInt 1)
    [("x", Value.vInt 9), ("a", Value.vDict [("b", Value.vInt 1)])] rfl
  exact ⟨h.1 ["x"] (by decide) (by decide), h.2 ["a"] (by decide) (by decide) (by decide)⟩
